import Mathlib

/-
Verification development for the DD family task/reward backend.

Shallow embedding of the core subsystems:
  - app/core/jobs.py        (process_daily_rewards_for_date)
  - app/scheduler.py        (create_recurring_task_instances)
  - app/routers/wallets.py  (convert_wallet, reprocess_rewards)
  - app/routers/tasks.py    (update_task_occurrence, toggle_complete_occurrence)
  - app/models/*.py         (the persisted state the jobs read and write)

Modelling conventions:
  - Calendar dates are day indices (Nat).  The epoch is chosen on a Monday,
    so the Python expression today.weekday() (Monday = 0 .. Sunday = 6)
    becomes today % 7.  The concrete date 2024-01-01 (a Monday) is the
    index 738885, which is congruent to 0 modulo 7.
  - Datetimes (the WalletTransaction.date column) are second counts; the
    calendar day of a datetime t is t / 86400, matching the code comparing
    the column against the bounds of one day.
  - Monetary Float columns are modelled as rationals; the amounts in every
    scenario are exact, so no rounding behaviour is involved.
  - Each database table is a list of rows inside one DB structure; queries
    are list filters and inserts are appends, in statement order of the
    source.  Auto-generated ids come from an explicit counter.
-/

namespace DD

/-- Seconds per calendar day; WalletTransaction.date is a datetime and the
jobs code compares it against the start and end of the target day. -/
def secondsPerDay : Nat := 86400

/-- Calendar day of a datetime value, as in the datetime.combine bounds of
process_daily_rewards_for_date. -/
def dateOf (t : Nat) : Nat := t / secondsPerDay

/-- The reason string written by the daily-reward job (jobs.py). -/
def dailyRewardReason : String := "Récompense journalière"

/-- The reason string written by the conversion endpoint (wallets.py). -/
def conversionReason : String := "Conversion en euros réels"

/-- Row of the legacy tasks table (app/models/task.py), including the
recurrence fields and, inlined, its task_assignments rows.  A NULL or empty
weekday array is modelled as the empty list. -/
structure LTask where
  id : Nat
  title : String
  description : String
  dueDate : Nat
  completed : Bool
  createdBy : Nat
  isRecurring : Bool
  weekdays : List Nat
  parentTaskId : Option Nat
  assignees : List Nat
deriving DecidableEq

/-- Row of task_series (app/models/task_series.py) with its assignees. -/
structure SeriesRow where
  id : Nat
  startDate : Nat
  untilDate : Option Nat
  assignees : List Nat
deriving DecidableEq

/-- Row of task_occurrences (app/models/task_series.py). -/
structure OccurrenceRow where
  seriesId : Nat
  dueDate : Nat
  completed : Bool
  cancelled : Bool
deriving DecidableEq

/-- Row of contracts (app/models/contract.py), the fields jobs.py reads. -/
structure Contract where
  id : Nat
  childId : Nat
  dailyReward : ℚ
  startDate : Nat
  endDate : Nat
  active : Bool
deriving DecidableEq

/-- Row of rule_violations (app/models/rule_violation.py). -/
structure RuleViolation where
  childId : Nat
  date : Nat
  description : String
deriving DecidableEq

/-- Row of wallets (app/models/wallet.py): one row per child. -/
structure Wallet where
  childId : Nat
  balance : ℚ
deriving DecidableEq

/-- Row of wallet_transactions (app/models/wallet.py).  The mapped columns
are child_id, amount, date, reason, contract_id; there is no date_only
column on this model. -/
structure WalletTx where
  childId : Nat
  amount : ℚ
  date : Nat
  reason : String
  contractId : Option Nat
deriving DecidableEq

/-- The persisted state the embedded operations read and write. -/
structure DB where
  tasks : List LTask
  nextTaskId : Nat
  series : List SeriesRow
  occurrences : List OccurrenceRow
  contracts : List Contract
  violations : List RuleViolation
  wallets : List Wallet
  transactions : List WalletTx
deriving DecidableEq

/-- Tasks assigned to the child and due on the target date: the
select(Task).join(task_assignments) query of jobs.py lines 51-56. -/
def tasksDueFor (db : DB) (child d : Nat) : List LTask :=
  db.tasks.filter (fun t => t.assignees.contains child && t.dueDate == d)

/-- Rule-violation check of jobs.py lines 73-79. -/
def hasViolation (db : DB) (child d : Nat) : Bool :=
  db.violations.any (fun v => v.childId == child && v.date == d)

/-- Existing daily-reward transactions for (child, contract, day): the
duplicate check of jobs.py lines 103-112, which compares the datetime
column against the bounds of the target day. -/
def existingDailyTxs (db : DB) (child cid d : Nat) : List WalletTx :=
  db.transactions.filter (fun tx =>
    tx.childId == child && tx.contractId == some cid &&
    dateOf tx.date == d && tx.reason == dailyRewardReason)

/-- Wallet creation of jobs.py lines 92-97: session.get then add if absent. -/
def ensureWallet (db : DB) (child : Nat) : DB :=
  if db.wallets.any (fun w => w.childId == child) then db
  else { db with wallets := db.wallets ++ [⟨child, 0⟩] }

/-- The in-place balance mutation of jobs.py line 123 (and the analogous
line 89 of convert_wallet). -/
def creditBalance (db : DB) (child : Nat) (amt : ℚ) : DB :=
  { db with wallets := db.wallets.map (fun w =>
      if w.childId == child then { w with balance := w.balance + amt } else w) }

/-- The branch taken by the per-contract body of
process_daily_rewards_for_date (jobs.py lines 50-144). -/
inductive ContractOutcome where
  | blockedTasks
  | blockedViolation
  | skippedExisting
  | creditErrorSkip
deriving DecidableEq

/-- One iteration of the per-contract loop of jobs.py lines 43-144.

In the final branch the code first mutates wallet.balance (line 123) and
then evaluates WalletTransaction(child_id=..., amount=..., reason=...,
contract_id=..., date_only=target_date) (lines 126-132).  date_only is not
a mapped attribute of WalletTransaction (app/models/wallet.py), so the
SQLAlchemy declarative constructor raises TypeError before the row reaches
session.add.  The except handler at line 140 logs a warning, increments
rewards_skipped and continues; nothing rolls the balance mutation back, so
it is committed at line 146 with no ledger row. -/
def processContract (d : Nat) (db : DB) (c : Contract) : ContractOutcome × DB :=
  if (tasksDueFor db c.childId d).any (fun t => !t.completed) then
    (.blockedTasks, db)
  else if hasViolation db c.childId d then
    (.blockedViolation, db)
  else if !(existingDailyTxs (ensureWallet db c.childId) c.childId c.id d).isEmpty then
    (.skippedExisting, ensureWallet db c.childId)
  else
    (.creditErrorSkip, creditBalance (ensureWallet db c.childId) c.childId c.dailyReward)

/-- The summary dictionary returned by process_daily_rewards_for_date. -/
structure RewardSummary where
  date : Nat
  rewardsProcessed : Nat
  rewardsSkipped : Nat
  totalAmountCredited : ℚ
deriving DecidableEq

/-- The contract loop of jobs.py lines 43-144 with its three counters.
Every branch of the body ends in rewards_skipped += 1: the two eligibility
failures and the duplicate skip by design, and the crediting branch because
the transaction constructor raises (see processContract). -/
def processContracts (d : Nat) :
    List Contract → DB → Nat → Nat → ℚ → RewardSummary × DB
  | [], db, p, s, tot => (⟨d, p, s, tot⟩, db)
  | c :: cs, db, p, s, tot =>
    processContracts d cs (processContract d db c).2 p (s + 1) tot

/-- The active-contract query of jobs.py lines 20-26. -/
def activeContractsFor (db : DB) (d : Nat) : List Contract :=
  db.contracts.filter (fun c =>
    c.active && decide (c.startDate ≤ d) && decide (d ≤ c.endDate))

/-- process_daily_rewards_for_date (jobs.py lines 10-165): select the
active contracts for the date, return the zero summary if there are none,
otherwise run the per-contract loop and commit the accumulated session
state. -/
def processDailyRewardsForDate (d : Nat) (db : DB) : RewardSummary × DB :=
  if (activeContractsFor db d).isEmpty then (⟨d, 0, 0, 0⟩, db)
  else processContracts d (activeContractsFor db d) db 0 0 0

/-- Balance shown for a child: the wallet row if present, else zero (the
endpoint creates missing wallets with balance 0). -/
def balanceOf (db : DB) (child : Nat) : ℚ :=
  match db.wallets.find? (fun w => w.childId == child) with
  | some w => w.balance
  | none => 0

/-- Sum of the signed transaction amounts of one child: the ledger side of
the balance invariant. -/
def ledgerSum (db : DB) (child : Nat) : ℚ :=
  ((db.transactions.filter (fun tx => tx.childId == child)).map
    (fun tx => tx.amount)).sum

/-- Errors of the conversion endpoint (wallets.py lines 75-109). -/
inductive ConvertError where
  | walletNotFound
  | invalidAmount
deriving DecidableEq

/-- convert_wallet (wallets.py lines 75-109): reject a missing wallet or a
non-positive or overdraft amount, otherwise decrement the balance and
append a negative conversion transaction dated now, in one commit. -/
def convertWallet (child : Nat) (amount : ℚ) (now : Nat) (db : DB) :
    Except ConvertError DB :=
  match db.wallets.find? (fun w => w.childId == child) with
  | none => .error .walletNotFound
  | some w =>
    if amount ≤ 0 ∨ amount > w.balance then .error .invalidAmount
    else .ok { db with
      wallets := db.wallets.map (fun x =>
        if x.childId == child then { x with balance := x.balance - amount } else x),
      transactions := db.transactions ++ [⟨child, -amount, now, conversionReason, none⟩] }

/-- start_of_next_week of scheduler.py line 44:
today + timedelta(days = 7 - today.weekday()), with today.weekday()
modelled as today % 7 (the day epoch is a Monday). -/
def startOfNextWeek (today : Nat) : Nat := today + (7 - today % 7)

/-- The existing-instance query of scheduler.py lines 57-60: child tasks of
the template with the given due date.  Weekday values are 1 (Monday) to
7 (Sunday) per the API contract, so the date expression below never
truncates. -/
def instancesFor (db : DB) (pid d : Nat) : List LTask :=
  db.tasks.filter (fun t => t.parentTaskId == some pid && t.dueDate == d)

/-- Number of materialized instances of a template on a date. -/
def countKey (db : DB) (pid d : Nat) : Nat := (instancesFor db pid d).length

/-- The new child task of scheduler.py lines 66-82: same title,
description and creator, due on the computed date, non-recurring, linked to
the template, with the template assignments copied. -/
def mkInstance (id : Nat) (tpl : LTask) (d : Nat) : LTask :=
  ⟨id, tpl.title, tpl.description, d, false, tpl.createdBy, false, [],
    some tpl.id, tpl.assignees⟩

/-- Insert one materialized instance (db.add plus flush). -/
def addInstance (db : DB) (tpl : LTask) (d : Nat) : DB :=
  { db with tasks := db.tasks ++ [mkInstance db.nextTaskId tpl d],
            nextTaskId := db.nextTaskId + 1 }

/-- The weekday loop of scheduler.py lines 52-90 for one recurring task.
scalar_one_or_none raises MultipleResultsFound when two or more instances
already exist for the (template, date) key; that exception escapes to the
outer handler, so it is modelled as the error case.  Otherwise the
iteration skips an existing instance or creates a missing one. -/
def processTaskWeekdays (tpl : LTask) (sonw : Nat) :
    List Nat → DB → Nat → Nat → Except Unit (Nat × Nat × DB)
  | [], db, created, skipped => .ok (created, skipped, db)
  | w :: ws, db, created, skipped =>
    let d := sonw + w - 1
    if 2 ≤ countKey db tpl.id d then .error ()
    else if countKey db tpl.id d = 1 then
      processTaskWeekdays tpl sonw ws db created (skipped + 1)
    else
      processTaskWeekdays tpl sonw ws (addInstance db tpl d) (created + 1) skipped

/-- The outer loop of scheduler.py lines 36-92 over the snapshot of
recurring tasks: a task with no configured weekdays is skipped entirely;
any error aborts the run (the outer except re-raises after rollback). -/
def processRecurring (sonw : Nat) :
    List LTask → DB → Nat → Nat → Except Unit (Nat × Nat × DB)
  | [], db, created, skipped => .ok (created, skipped, db)
  | t :: ts, db, created, skipped =>
    if t.weekdays.isEmpty then processRecurring sonw ts db created skipped
    else
      match processTaskWeekdays t sonw t.weekdays db created skipped with
      | .error e => .error e
      | .ok (c1, s1, db1) => processRecurring sonw ts db1 c1 s1

/-- create_recurring_task_instances (scheduler.py lines 11-105): select the
recurring tasks once, then materialize their next-week instances.  The
result carries the created and skipped counters and the session state that
commit would persist; the error case models the exception path, in which
the session is rolled back and the exception re-raised. -/
def createRecurringTaskInstances (today : Nat) (db : DB) :
    Except Unit (Nat × Nat × DB) :=
  processRecurring (startOfNextWeek today)
    (db.tasks.filter (fun t => t.isRecurring)) db 0 0

/-- State reached by one invocation: the committed session on success, the
rolled-back original state when the run raises. -/
def runMaterialize (today : Nat) (db : DB) : DB :=
  match createRecurringTaskInstances today db with
  | .ok (_, _, db1) => db1
  | .error _ => db

/-- Count of instances actually created by one invocation (zero when the
run raises before committing). -/
def materializeCreated (today : Nat) (db : DB) : Nat :=
  match createRecurringTaskInstances today db with
  | .ok (c, _, _) => c
  | .error _ => 0

/-- Claim C1 evaluation at the failing input: one active contract (id 3,
child 7, daily reward 5, date range day 100 to day 200) over otherwise
empty tables; process_daily_rewards_for_date is run twice for day 150.
After both runs the wallet balance of child 7 is 10 (credited anew on each
run) and the transaction table is still empty: no daily-reward row is ever
written, because the WalletTransaction constructor call fails on the
date_only keyword after the balance was already mutated, and the duplicate
check therefore never finds anything to skip.  This contradicts the claim
that the runs converge to exactly one transaction and one credit. -/
theorem dd_c1_no_transaction_double_credit :
    (let db0 : DB := ⟨[], 0, [], [], [⟨3, 7, 5, 100, 200, true⟩], [], [], []⟩
     let db1 := (processDailyRewardsForDate 150 db0).2
     let db2 := (processDailyRewardsForDate 150 db1).2
     balanceOf db2 7 = 10 ∧ db2.transactions = [] ∧
       (processDailyRewardsForDate 150 db1).1.rewardsProcessed = 0) := by
  norm_num [processDailyRewardsForDate, activeContractsFor, processContracts,
    processContract, tasksDueFor, hasViolation, existingDailyTxs, ensureWallet,
    creditBalance, balanceOf, ledgerSum, dateOf, secondsPerDay]

/-- Claim C2 evaluation at the failing input: one active contract (id 9,
child 2, daily reward 5, date range day 0 to day 50) over otherwise empty
tables; process_daily_rewards_for_date is run once for day 10.  The wallet
balance of child 2 becomes 5 while the ledger sum of child 2 stays 0: the
balance was updated without a corresponding transaction row in the same
transaction, contradicting the ledger invariant. -/
theorem dd_c2_balance_ledger_divergence :
    (let db0 : DB := ⟨[], 0, [], [], [⟨9, 2, 5, 0, 50, true⟩], [], [], []⟩
     let db1 := (processDailyRewardsForDate 10 db0).2
     balanceOf db1 2 = 5 ∧ ledgerSum db1 2 = 0) := by
  norm_num [processDailyRewardsForDate, activeContractsFor, processContracts,
    processContract, tasksDueFor, hasViolation, existingDailyTxs, ensureWallet,
    creditBalance, balanceOf, ledgerSum, dateOf, secondsPerDay]

/-- Claim C4 counterexample: a recurring task with weekdays Monday and
Wednesday, start date before the window, materialized with today =
2024-01-01 (day index 738885, a Monday).  The claim expects occurrence
dates Jan 1, 3, 8, 10, 15, 17, 22, 24, 29, 31 (the recurrence dates inside
the rolling horizon [today, today + 30]); the code instead generates
exactly the two dates of the following calendar week, Jan 8 (738892) and
Jan 10 (738894), and in particular no instance dated Jan 3 (738887) ever
exists. -/
theorem dd_c4_next_week_only :
    (let tpl : LTask :=
       ⟨1, "Ranger la chambre", "", 738880, false, 10, true, [1, 3], none, [4]⟩
     let db0 : DB := ⟨[tpl], 2, [], [], [], [], [], []⟩
     let db1 := runMaterialize 738885 db0
     ((db1.tasks.filter (fun t => t.parentTaskId == some 1)).map
        (fun t => t.dueDate) = [738892, 738894]) ∧
     (db1.tasks.filter (fun t => t.dueDate == 738887)) = [] ∧
     materializeCreated 738885 db0 = 2) := by
  decide

/-- Due dates of the materialized instances of one template, in table
order. -/
def instanceDates (db : DB) (pid : Nat) : List Nat :=
  (db.tasks.filter (fun t => t.parentTaskId == some pid)).map (fun t => t.dueDate)

theorem countKey_addInstance (db : DB) (tpl : LTask) (d0 pid d : Nat) :
    countKey (addInstance db tpl d0) pid d =
      if tpl.id = pid ∧ d0 = d then countKey db pid d + 1
      else countKey db pid d := by
  unfold countKey instancesFor addInstance
  simp only [List.filter_append, List.length_append]
  split
  · rename_i h
    rw [List.filter_cons_of_pos, List.filter_nil]
    · simp
    · simp [mkInstance, h.1, h.2]
  · rename_i h
    rw [List.filter_cons_of_neg, List.filter_nil]
    · simp
    · simp only [mkInstance, Bool.and_eq_true, beq_iff_eq, Option.some.injEq,
        not_and]
      intro h1 h2
      exact h ⟨h1, h2⟩

theorem instanceDates_addInstance (db : DB) (tpl : LTask) (d0 : Nat) :
    instanceDates (addInstance db tpl d0) tpl.id =
      instanceDates db tpl.id ++ [d0] := by
  unfold instanceDates addInstance
  simp only [List.filter_append, List.map_append]
  rw [List.filter_cons_of_pos, List.filter_nil]
  · simp [mkInstance]
  · simp [mkInstance]

theorem ptw_ok_countKey (tpl : LTask) (sonw : Nat) (ws : List Nat) :
    ∀ (db : DB) (c s c1 s1 : Nat) (db1 : DB),
      processTaskWeekdays tpl sonw ws db c s = .ok (c1, s1, db1) →
      ∀ pid d, countKey db1 pid d = countKey db pid d ∨
        (countKey db pid d = 0 ∧ countKey db1 pid d = 1) := by
  induction ws with
  | nil =>
    intro db c s c1 s1 db1 h pid d
    simp only [processTaskWeekdays, Except.ok.injEq, Prod.mk.injEq] at h
    rw [h.2.2]
    exact Or.inl rfl
  | cons w ws ih =>
    intro db c s c1 s1 db1 h pid d
    rw [processTaskWeekdays] at h
    split at h
    · exact absurd h (by simp)
    · split at h
      · exact ih db c (s + 1) c1 s1 db1 h pid d
      · rename_i h2 h1
        have hz : countKey db tpl.id (sonw + w - 1) = 0 := by omega
        have := ih _ (c + 1) s c1 s1 db1 h pid d
        rw [countKey_addInstance] at this
        split at this
        · rename_i hk
          obtain ⟨hk1, hk2⟩ := hk
          subst hk1
          subst hk2
          rcases this with h3 | h3
          · right
            refine ⟨?_, ?_⟩ <;> omega
          · exfalso; omega
        · exact this

theorem ptw_ok_post (tpl : LTask) (sonw : Nat) (ws : List Nat) :
    ∀ (db : DB) (c s c1 s1 : Nat) (db1 : DB),
      processTaskWeekdays tpl sonw ws db c s = .ok (c1, s1, db1) →
      ∀ w ∈ ws, countKey db1 tpl.id (sonw + w - 1) = 1 := by
  induction ws with
  | nil => intro db c s c1 s1 db1 h w hw; exact absurd hw (by simp)
  | cons w0 ws ih =>
    intro db c s c1 s1 db1 h w hw
    rw [processTaskWeekdays] at h
    split at h
    · exact absurd h (by simp)
    · split at h
      · rename_i h2 h1
        rcases List.mem_cons.mp hw with rfl | hw2
        · have := ptw_ok_countKey tpl sonw ws db c (s + 1) c1 s1 db1 h
            tpl.id (sonw + w - 1)
          omega
        · exact ih db c (s + 1) c1 s1 db1 h w hw2
      · rename_i h2 h1
        have hz : countKey db tpl.id (sonw + w0 - 1) = 0 := by omega
        rcases List.mem_cons.mp hw with rfl | hw2
        · have hadd : countKey (addInstance db tpl (sonw + w - 1)) tpl.id
              (sonw + w - 1) = 1 := by
            rw [countKey_addInstance]
            simp [hz]
          have := ptw_ok_countKey tpl sonw ws _ (c + 1) s c1 s1 db1 h
            tpl.id (sonw + w - 1)
          omega
        · exact ih _ (c + 1) s c1 s1 db1 h w hw2

theorem ptw_all_present (tpl : LTask) (sonw : Nat) (ws : List Nat) :
    ∀ (db : DB) (c s : Nat),
      (∀ w ∈ ws, countKey db tpl.id (sonw + w - 1) = 1) →
      processTaskWeekdays tpl sonw ws db c s = .ok (c, s + ws.length, db) := by
  induction ws with
  | nil => intro db c s _; simp [processTaskWeekdays]
  | cons w ws ih =>
    intro db c s hall
    have h1 : countKey db tpl.id (sonw + w - 1) = 1 :=
      hall w (List.mem_cons_self w ws)
    rw [processTaskWeekdays]
    rw [if_neg (by omega), if_pos h1]
    rw [show s + (w :: ws).length = (s + 1) + ws.length from by
      simp only [List.length_cons]; omega]
    exact ih db c (s + 1) (fun w2 hw2 => hall w2 (List.mem_cons_of_mem w hw2))

theorem ptw_ok_tasks (tpl : LTask) (sonw : Nat) (ws : List Nat) :
    ∀ (db : DB) (c s c1 s1 : Nat) (db1 : DB),
      processTaskWeekdays tpl sonw ws db c s = .ok (c1, s1, db1) →
      ∃ new, db1.tasks = db.tasks ++ new ∧
        ∀ u ∈ new, u.isRecurring = false := by
  induction ws with
  | nil =>
    intro db c s c1 s1 db1 h
    simp only [processTaskWeekdays, Except.ok.injEq, Prod.mk.injEq] at h
    rw [h.2.2]
    exact ⟨[], by simp⟩
  | cons w ws ih =>
    intro db c s c1 s1 db1 h
    rw [processTaskWeekdays] at h
    split at h
    · exact absurd h (by simp)
    · split at h
      · exact ih db c (s + 1) c1 s1 db1 h
      · obtain ⟨new, hnew, hrec⟩ := ih _ (c + 1) s c1 s1 db1 h
        refine ⟨mkInstance db.nextTaskId tpl (sonw + w - 1) :: new, ?_, ?_⟩
        · rw [hnew]
          simp [addInstance]
        · intro u hu
          rcases List.mem_cons.mp hu with rfl | hu2
          · rfl
          · exact hrec u hu2

theorem pr_ok_countKey (sonw : Nat) (ts : List LTask) :
    ∀ (db : DB) (c s c1 s1 : Nat) (db1 : DB),
      processRecurring sonw ts db c s = .ok (c1, s1, db1) →
      ∀ pid d, countKey db1 pid d = countKey db pid d ∨
        (countKey db pid d = 0 ∧ countKey db1 pid d = 1) := by
  induction ts with
  | nil =>
    intro db c s c1 s1 db1 h pid d
    simp only [processRecurring, Except.ok.injEq, Prod.mk.injEq] at h
    rw [h.2.2]
    exact Or.inl rfl
  | cons t ts ih =>
    intro db c s c1 s1 db1 h pid d
    rw [processRecurring] at h
    split at h
    · exact ih db c s c1 s1 db1 h pid d
    · split at h
      · exact absurd h (by simp)
      · rename_i heq
        have hstep := ptw_ok_countKey t sonw t.weekdays db c s _ _ _ heq pid d
        have hrest := ih _ _ _ c1 s1 db1 h pid d
        omega

theorem pr_ok_post (sonw : Nat) (ts : List LTask) :
    ∀ (db : DB) (c s c1 s1 : Nat) (db1 : DB),
      processRecurring sonw ts db c s = .ok (c1, s1, db1) →
      ∀ t ∈ ts, ∀ w ∈ t.weekdays, countKey db1 t.id (sonw + w - 1) = 1 := by
  induction ts with
  | nil => intro db c s c1 s1 db1 h t ht; exact absurd ht (by simp)
  | cons t0 ts ih =>
    intro db c s c1 s1 db1 h t ht w hw
    rw [processRecurring] at h
    split at h
    · rename_i hemp
      rcases List.mem_cons.mp ht with rfl | ht2
      · rw [List.isEmpty_iff] at hemp
        rw [hemp] at hw
        exact absurd hw (by simp)
      · exact ih db c s c1 s1 db1 h t ht2 w hw
    · split at h
      · exact absurd h (by simp)
      · rename_i heq
        rcases List.mem_cons.mp ht with rfl | ht2
        · have hstep := ptw_ok_post t sonw t.weekdays db c s _ _ _ heq w hw
          have hrest := pr_ok_countKey sonw ts _ _ _ c1 s1 db1 h
            t.id (sonw + w - 1)
          omega
        · exact ih _ _ _ c1 s1 db1 h t ht2 w hw

theorem pr_all_present (sonw : Nat) (ts : List LTask) :
    ∀ (db : DB) (c s : Nat),
      (∀ t ∈ ts, ∀ w ∈ t.weekdays, countKey db t.id (sonw + w - 1) = 1) →
      ∃ s1, processRecurring sonw ts db c s = .ok (c, s1, db) := by
  induction ts with
  | nil => intro db c s _; exact ⟨s, by simp [processRecurring]⟩
  | cons t ts ih =>
    intro db c s hall
    rw [processRecurring]
    split
    · exact ih db c s (fun t2 ht2 => hall t2 (List.mem_cons_of_mem t ht2))
    · rw [ptw_all_present t sonw t.weekdays db c s
        (hall t (List.mem_cons_self t ts))]
      exact ih db c (s + t.weekdays.length)
        (fun t2 ht2 => hall t2 (List.mem_cons_of_mem t ht2))

theorem pr_ok_tasks (sonw : Nat) (ts : List LTask) :
    ∀ (db : DB) (c s c1 s1 : Nat) (db1 : DB),
      processRecurring sonw ts db c s = .ok (c1, s1, db1) →
      ∃ new, db1.tasks = db.tasks ++ new ∧
        ∀ u ∈ new, u.isRecurring = false := by
  induction ts with
  | nil =>
    intro db c s c1 s1 db1 h
    simp only [processRecurring, Except.ok.injEq, Prod.mk.injEq] at h
    rw [h.2.2]
    exact ⟨[], by simp⟩
  | cons t ts ih =>
    intro db c s c1 s1 db1 h
    rw [processRecurring] at h
    split at h
    · exact ih db c s c1 s1 db1 h
    · split at h
      · exact absurd h (by simp)
      · rename_i heq
        obtain ⟨n1, hn1, hr1⟩ := ptw_ok_tasks t sonw t.weekdays db c s _ _ _ heq
        obtain ⟨n2, hn2, hr2⟩ := ih _ _ _ c1 s1 db1 h
        refine ⟨n1 ++ n2, ?_, ?_⟩
        · rw [hn2, hn1, List.append_assoc]
        · intro u hu
          rcases List.mem_append.mp hu with hu1 | hu2
          · exact hr1 u hu1
          · exact hr2 u hu2

/-- Claim C6: materializing twice in a row with the same current date and
no intervening change is the same as materializing once.  The second run
leaves the state exactly as the first run left it, creates zero instances,
and the routine only ever appends rows: the tasks after any run are the
tasks before it followed by the newly created instances, so no existing
occurrence is recreated, modified or deleted. -/
theorem dd_c6_materialize_idempotent (today : Nat) (db : DB) :
    runMaterialize today (runMaterialize today db) = runMaterialize today db ∧
    materializeCreated today (runMaterialize today db) = 0 ∧
    ∃ new, (runMaterialize today db).tasks = db.tasks ++ new := by
  rcases hrun : createRecurringTaskInstances today db with e | ⟨c, s, db1⟩
  · have h0 : runMaterialize today db = db := by rw [runMaterialize, hrun]
    rw [h0]
    exact ⟨h0, by rw [materializeCreated, hrun], [], by simp⟩
  · have hfirst : runMaterialize today db = db1 := by rw [runMaterialize, hrun]
    rw [hfirst]
    have hpr : processRecurring (startOfNextWeek today)
        (db.tasks.filter (fun t => t.isRecurring)) db 0 0 = .ok (c, s, db1) := by
      rw [← createRecurringTaskInstances]; exact hrun
    obtain ⟨new, hnew, hrec⟩ := pr_ok_tasks (startOfNextWeek today) _ _ _ _ _ _ _ hpr
    have hsnap : db1.tasks.filter (fun t => t.isRecurring) =
        db.tasks.filter (fun t => t.isRecurring) := by
      rw [hnew, List.filter_append]
      have hnil : new.filter (fun t => t.isRecurring) = [] := by
        rw [List.filter_eq_nil_iff]
        intro u hu
        simp [hrec u hu]
      rw [hnil, List.append_nil]
    have hpost := pr_ok_post (startOfNextWeek today) _ _ _ _ _ _ _ hpr
    obtain ⟨s2, hs2⟩ := pr_all_present (startOfNextWeek today)
      (db.tasks.filter (fun t => t.isRecurring)) db1 0 0
      (fun t ht w hw => hpost t ht w hw)
    have hrun2 : createRecurringTaskInstances today db1 = .ok (0, s2, db1) := by
      rw [createRecurringTaskInstances, hsnap]
      exact hs2
    refine ⟨?_, ?_, new, hnew⟩
    · rw [runMaterialize, hrun2]
    · rw [materializeCreated, hrun2]

theorem ptw_fresh (tpl : LTask) (sonw : Nat) (ws : List Nat) :
    ∀ (db : DB) (c s : Nat),
      ws.Nodup → (∀ w ∈ ws, 1 ≤ w) →
      (∀ w ∈ ws, countKey db tpl.id (sonw + w - 1) = 0) →
      ∃ db1,
        processTaskWeekdays tpl sonw ws db c s = .ok (c + ws.length, s, db1) ∧
        instanceDates db1 tpl.id =
          instanceDates db tpl.id ++ ws.map (fun w => sonw + w - 1) := by
  induction ws with
  | nil =>
    intro db c s _ _ _
    exact ⟨db, by simp [processTaskWeekdays], by simp⟩
  | cons w ws ih =>
    intro db c s hnd hge hz
    have hz0 : countKey db tpl.id (sonw + w - 1) = 0 :=
      hz w (List.mem_cons_self w ws)
    have hwge : 1 ≤ w := hge w (List.mem_cons_self w ws)
    have hnotmem : w ∉ ws := (List.nodup_cons.mp hnd).1
    rw [processTaskWeekdays]
    rw [if_neg (by omega), if_neg (by omega)]
    have hztail : ∀ w2 ∈ ws,
        countKey (addInstance db tpl (sonw + w - 1)) tpl.id
          (sonw + w2 - 1) = 0 := by
      intro w2 hw2
      rw [countKey_addInstance]
      have hne : ¬(tpl.id = tpl.id ∧ sonw + w - 1 = sonw + w2 - 1) := by
        rintro ⟨-, hd⟩
        have hw2ge : 1 ≤ w2 := hge w2 (List.mem_cons_of_mem w hw2)
        have : w = w2 := by omega
        exact hnotmem (this ▸ hw2)
      rw [if_neg hne]
      exact hz w2 (List.mem_cons_of_mem w hw2)
    obtain ⟨db1, hstep, hdates⟩ := ih (addInstance db tpl (sonw + w - 1))
      (c + 1) s (List.nodup_cons.mp hnd).2
      (fun w2 hw2 => hge w2 (List.mem_cons_of_mem w hw2)) hztail
    refine ⟨db1, ?_, ?_⟩
    · rw [show c + (w :: ws).length = (c + 1) + ws.length from by
        simp only [List.length_cons]; omega]
      exact hstep
    · rw [hdates, instanceDates_addInstance]
      simp [List.append_assoc]

/-- Claim C4 as amended: create_recurring_task_instances has no rolling
[today, today + N] horizon.  For a recurring task with distinct weekday
values in 1..7 and no pre-existing child instances, one run creates
exactly one instance per configured weekday, each dated in the calendar
week after today: startOfNextWeek today + (w - 1), where
startOfNextWeek today = today + (7 - today % 7).  With weekdays
Monday and Wednesday and today = 2024-01-01, the created dates are
2024-01-08 and 2024-01-10 only. -/
theorem dd_c4_amended (today : Nat) (tpl : LTask) (ntid : Nat)
    (se : List SeriesRow) (oc : List OccurrenceRow) (cs : List Contract)
    (vs : List RuleViolation) (wl : List Wallet) (txs : List WalletTx)
    (hrec : tpl.isRecurring = true) (hpar : tpl.parentTaskId = none)
    (hnd : tpl.weekdays.Nodup) (hge : ∀ w ∈ tpl.weekdays, 1 ≤ w) :
    ∃ db1,
      createRecurringTaskInstances today ⟨[tpl], ntid, se, oc, cs, vs, wl, txs⟩ =
        .ok (tpl.weekdays.length, 0, db1) ∧
      instanceDates db1 tpl.id =
        tpl.weekdays.map (fun w => startOfNextWeek today + w - 1) := by
  have h0 : ∀ dd, countKey ⟨[tpl], ntid, se, oc, cs, vs, wl, txs⟩ tpl.id dd = 0 := by
    intro dd
    simp [countKey, instancesFor, hpar]
  have hdates0 : instanceDates ⟨[tpl], ntid, se, oc, cs, vs, wl, txs⟩ tpl.id = [] := by
    simp [instanceDates, hpar]
  rw [createRecurringTaskInstances]
  have hfilter : List.filter (fun t => t.isRecurring)
      (DB.tasks ⟨[tpl], ntid, se, oc, cs, vs, wl, txs⟩) = [tpl] := by
    simp [hrec]
  rw [hfilter, processRecurring]
  split
  · rename_i hemp
    rw [List.isEmpty_iff] at hemp
    refine ⟨⟨[tpl], ntid, se, oc, cs, vs, wl, txs⟩, ?_, ?_⟩
    · rw [hemp]; rfl
    · rw [hdates0, hemp]; rfl
  · obtain ⟨db1, hstep, hdates⟩ := ptw_fresh tpl (startOfNextWeek today)
      tpl.weekdays ⟨[tpl], ntid, se, oc, cs, vs, wl, txs⟩ 0 0 hnd hge
      (fun w _ => h0 (startOfNextWeek today + w - 1))
    rw [hstep]
    refine ⟨db1, by rw [Nat.zero_add]; rfl, ?_⟩
    rw [hdates, hdates0, List.nil_append]

/-- Claim C4 amended-theorem witness: a concrete recurring task with
weekdays Monday and Wednesday materialized on 2024-01-01 (day 738885)
creates exactly the dates 738892 (Jan 8) and 738894 (Jan 10). -/
theorem dd_c4_amended_witness :
    (let tpl : LTask :=
       ⟨2, "Lecture du soir", "", 738880, false, 10, true, [1, 3], none, [5]⟩
     ∃ db1,
       createRecurringTaskInstances 738885 ⟨[tpl], 3, [], [], [], [], [], []⟩ =
         .ok (2, 0, db1) ∧
       instanceDates db1 2 = [738892, 738894]) :=
  dd_c4_amended 738885
    ⟨2, "Lecture du soir", "", 738880, false, 10, true, [1, 3], none, [5]⟩
    3 [] [] [] [] [] [] rfl rfl (by decide) (by decide)

theorem ensureWallet_transactions (db : DB) (x : Nat) :
    (ensureWallet db x).transactions = db.transactions := by
  unfold ensureWallet
  split <;> rfl

theorem ensureWallet_tasks (db : DB) (x : Nat) :
    (ensureWallet db x).tasks = db.tasks := by
  unfold ensureWallet
  split <;> rfl

theorem creditBalance_transactions (db : DB) (x : Nat) (amt : ℚ) :
    (creditBalance db x amt).transactions = db.transactions := rfl

theorem creditBalance_tasks (db : DB) (x : Nat) (amt : ℚ) :
    (creditBalance db x amt).tasks = db.tasks := rfl

theorem tasksDueFor_congr (db1 db : DB) (h : db1.tasks = db.tasks)
    (ch d : Nat) : tasksDueFor db1 ch d = tasksDueFor db ch d := by
  unfold tasksDueFor
  rw [h]

theorem existingDailyTxs_congr (db1 db : DB)
    (h : db1.transactions = db.transactions) (ch cid d : Nat) :
    existingDailyTxs db1 ch cid d = existingDailyTxs db ch cid d := by
  unfold existingDailyTxs
  rw [h]

theorem balanceOf_ensureWallet_other (db : DB) (x ch : Nat) (h : x ≠ ch) :
    balanceOf (ensureWallet db x) ch = balanceOf db ch := by
  unfold ensureWallet
  split
  · rfl
  · unfold balanceOf
    simp only [List.find?_append]
    have hone : List.find? (fun w => w.childId == ch) [(⟨x, 0⟩ : Wallet)] = none := by
      simp [h]
    rw [hone, Option.or_none]

theorem balanceOf_ensureWallet_self (db : DB) (ch : Nat) :
    balanceOf (ensureWallet db ch) ch = balanceOf db ch := by
  unfold ensureWallet
  split
  · rfl
  · rename_i hany
    have hnone : db.wallets.find? (fun w => w.childId == ch) = none := by
      rw [List.find?_eq_none]
      intro w hw hc
      exact hany (List.any_eq_true.mpr ⟨w, hw, hc⟩)
    unfold balanceOf
    simp only [List.find?_append, hnone, Option.none_or]
    simp

theorem ensureWallet_mem (db : DB) (ch : Nat) :
    ∃ w ∈ (ensureWallet db ch).wallets, w.childId = ch := by
  unfold ensureWallet
  split
  · rename_i hany
    obtain ⟨w, hw, hc⟩ := List.any_eq_true.mp hany
    exact ⟨w, hw, by simpa using hc⟩
  · exact ⟨⟨ch, 0⟩, by simp, rfl⟩

theorem credit_map_childId (w : Wallet) (x : Nat) (amt : ℚ) :
    (if w.childId == x then { w with balance := w.balance + amt }
      else w).childId = w.childId := by
  split <;> rfl

theorem credit_map_pred (x ch : Nat) (amt : ℚ) :
    ((fun w : Wallet => w.childId == ch) ∘ fun w : Wallet =>
        if w.childId == x then { w with balance := w.balance + amt } else w) =
      fun w : Wallet => w.childId == ch := by
  funext w
  simp only [Function.comp]
  rw [credit_map_childId]

theorem balanceOf_creditBalance_other (db : DB) (x ch : Nat) (amt : ℚ)
    (h : x ≠ ch) :
    balanceOf (creditBalance db x amt) ch = balanceOf db ch := by
  unfold balanceOf creditBalance
  simp only [List.find?_map, credit_map_pred]
  rcases hf : db.wallets.find? (fun w => w.childId == ch) with - | w
  · rw [hf]; rfl
  · have hch : w.childId = ch := by
      have hp := List.find?_some hf
      simpa using hp
    rw [hf]
    simp [hch, Ne.symm h]

theorem balanceOf_creditBalance_self (db : DB) (ch : Nat) (amt : ℚ)
    (h : ∃ w ∈ db.wallets, w.childId = ch) :
    balanceOf (creditBalance db ch amt) ch = balanceOf db ch + amt := by
  unfold balanceOf creditBalance
  simp only [List.find?_map, credit_map_pred]
  rcases hf : db.wallets.find? (fun w => w.childId == ch) with - | w
  · rw [List.find?_eq_none] at hf
    obtain ⟨w0, hw0, hc0⟩ := h
    exact absurd (by simp [hc0]) (hf w0 hw0)
  · have hch : w.childId = ch := by
      have hp := List.find?_some hf
      simpa using hp
    rw [hf]
    simp [hch]

theorem processContract_preserves (d : Nat) (db : DB) (c : Contract) :
    (processContract d db c).2.transactions = db.transactions ∧
    (processContract d db c).2.tasks = db.tasks := by
  unfold processContract
  split
  · exact ⟨rfl, rfl⟩
  · split
    · exact ⟨rfl, rfl⟩
    · split
      · exact ⟨ensureWallet_transactions db c.childId,
          ensureWallet_tasks db c.childId⟩
      · refine ⟨?_, ?_⟩
        · rw [creditBalance_transactions, ensureWallet_transactions]
        · rw [creditBalance_tasks, ensureWallet_tasks]

theorem processContract_balance_other (d : Nat) (db : DB) (c : Contract)
    (ch : Nat) (h : c.childId ≠ ch) :
    balanceOf (processContract d db c).2 ch = balanceOf db ch := by
  unfold processContract
  split
  · rfl
  · split
    · rfl
    · split
      · exact balanceOf_ensureWallet_other db c.childId ch h
      · rw [balanceOf_creditBalance_other _ _ _ _ h,
          balanceOf_ensureWallet_other db c.childId ch h]

theorem processContract_blocked (d : Nat) (db : DB) (c : Contract)
    (h : (tasksDueFor db c.childId d).any (fun t => !t.completed) = true) :
    processContract d db c = (.blockedTasks, db) := by
  unfold processContract
  rw [if_pos h]

theorem processContract_balance_self (d : Nat) (db : DB) (c : Contract) :
    balanceOf (processContract d db c).2 c.childId =
      if (tasksDueFor db c.childId d).any (fun t => !t.completed) = false ∧
          hasViolation db c.childId d = false ∧
          existingDailyTxs db c.childId c.id d = []
      then balanceOf db c.childId + c.dailyReward
      else balanceOf db c.childId := by
  have hew : existingDailyTxs (ensureWallet db c.childId) c.childId c.id d =
      existingDailyTxs db c.childId c.id d :=
    existingDailyTxs_congr _ _ (ensureWallet_transactions db c.childId) _ _ _
  unfold processContract
  by_cases h1 : (tasksDueFor db c.childId d).any (fun t => !t.completed) = true
  · have hnc : ¬((tasksDueFor db c.childId d).any (fun t => !t.completed) = false ∧
        hasViolation db c.childId d = false ∧
        existingDailyTxs db c.childId c.id d = []) := by simp [h1]
    rw [if_pos h1, if_neg hnc]
  · have h1f : (tasksDueFor db c.childId d).any (fun t => !t.completed) = false := by
      simpa using h1
    rw [if_neg h1]
    by_cases h2 : hasViolation db c.childId d = true
    · have hnc : ¬((tasksDueFor db c.childId d).any (fun t => !t.completed) = false ∧
          hasViolation db c.childId d = false ∧
          existingDailyTxs db c.childId c.id d = []) := by simp [h2]
      rw [if_pos h2, if_neg hnc]
    · have h2f : hasViolation db c.childId d = false := by simpa using h2
      rw [if_neg h2]
      by_cases h3 : existingDailyTxs db c.childId c.id d = []
      · have hemp : (!(existingDailyTxs (ensureWallet db c.childId) c.childId
            c.id d).isEmpty) = false := by
          rw [hew, h3]; rfl
        rw [if_neg (by simp [hemp]), if_pos ⟨h1f, h2f, h3⟩]
        rw [show ((ContractOutcome.creditErrorSkip,
            creditBalance (ensureWallet db c.childId) c.childId c.dailyReward) :
            ContractOutcome × DB).2 =
            creditBalance (ensureWallet db c.childId) c.childId c.dailyReward
          from rfl]
        rw [balanceOf_creditBalance_self _ _ _ (ensureWallet_mem db c.childId),
          balanceOf_ensureWallet_self]
      · have hemp : (!(existingDailyTxs (ensureWallet db c.childId) c.childId
            c.id d).isEmpty) = true := by
          rw [hew]
          simpa [List.isEmpty_iff] using h3
        have hnc : ¬((tasksDueFor db c.childId d).any (fun t => !t.completed) = false ∧
            hasViolation db c.childId d = false ∧
            existingDailyTxs db c.childId c.id d = []) := by simp [h3]
        rw [if_pos hemp, if_neg hnc]
        exact balanceOf_ensureWallet_self db c.childId

theorem processContracts_transactions (d : Nat) (cs : List Contract) :
    ∀ (db : DB) (p s : Nat) (tot : ℚ),
      (processContracts d cs db p s tot).2.transactions = db.transactions := by
  induction cs with
  | nil => intro db p s tot; rfl
  | cons c cs ih =>
    intro db p s tot
    rw [show processContracts d (c :: cs) db p s tot =
        processContracts d cs (processContract d db c).2 p (s + 1) tot from rfl]
    rw [ih, (processContract_preserves d db c).1]

theorem processContracts_tasks (d : Nat) (cs : List Contract) :
    ∀ (db : DB) (p s : Nat) (tot : ℚ),
      (processContracts d cs db p s tot).2.tasks = db.tasks := by
  induction cs with
  | nil => intro db p s tot; rfl
  | cons c cs ih =>
    intro db p s tot
    rw [show processContracts d (c :: cs) db p s tot =
        processContracts d cs (processContract d db c).2 p (s + 1) tot from rfl]
    rw [ih, (processContract_preserves d db c).2]

theorem processContracts_balance_blocked (d ch : Nat) (cs : List Contract) :
    ∀ (db : DB) (p s : Nat) (tot : ℚ),
      (tasksDueFor db ch d).any (fun t => !t.completed) = true →
      balanceOf (processContracts d cs db p s tot).2 ch = balanceOf db ch := by
  induction cs with
  | nil => intro db p s tot _; rfl
  | cons c cs ih =>
    intro db p s tot h
    rw [show processContracts d (c :: cs) db p s tot =
        processContracts d cs (processContract d db c).2 p (s + 1) tot from rfl]
    have htasks : (processContract d db c).2.tasks = db.tasks :=
      (processContract_preserves d db c).2
    have htrans : (tasksDueFor (processContract d db c).2 ch d).any
        (fun t => !t.completed) = true := by
      rw [tasksDueFor_congr _ _ htasks]
      exact h
    by_cases hc : c.childId = ch
    · have hblocked : processContract d db c = (.blockedTasks, db) :=
        processContract_blocked d db c (by rw [hc]; exact h)
      rw [ih _ _ _ _ htrans, hblocked]
    · rw [ih _ _ _ _ htrans, processContract_balance_other d db c ch hc]

/-- Claim C5 counterexample: child 4 is assigned, through series 6, an
occurrence due on day 20 that is neither completed nor cancelled, and has
an active contract 11 (daily reward 3, range day 0 to day 100).  The
daily-reward evaluation for day 20 nevertheless credits the contract: the
task-completion check of jobs.py queries only the legacy Task table and
never consults TaskOccurrence, so the wallet balance of child 4 grows by 3
although an incomplete occurrence is due that day. -/
theorem dd_c5_occurrence_does_not_block :
    (let db0 : DB := ⟨[], 0, [⟨6, 0, some 1000, [4]⟩], [⟨6, 20, false, false⟩],
       [⟨11, 4, 3, 0, 100, true⟩], [], [], []⟩
     let db1 := (processDailyRewardsForDate 20 db0).2
     (db0.series.any (fun sr => sr.id == 6 && sr.assignees.contains 4)) = true ∧
     (db0.occurrences.any (fun o => o.seriesId == 6 && o.dueDate == 20 &&
        !o.completed && !o.cancelled)) = true ∧
     balanceOf db1 4 = 3) := by
  norm_num [processDailyRewardsForDate, activeContractsFor, processContracts,
    processContract, tasksDueFor, hasViolation, existingDailyTxs, ensureWallet,
    creditBalance, balanceOf, dateOf, secondsPerDay]

/-- Claim C5 as amended: if any single row of the legacy Task table
assigned to the child and due on date D is not completed, the daily-reward
run for D leaves the wallet balance of that child unchanged and writes no
transaction (no contract of that child is credited).  TaskOccurrence rows
are not consulted by the evaluation, so only legacy Task rows gate the
reward. -/
theorem dd_c5_amended (d ch : Nat) (db : DB)
    (h : (tasksDueFor db ch d).any (fun t => !t.completed) = true) :
    balanceOf (processDailyRewardsForDate d db).2 ch = balanceOf db ch ∧
    (processDailyRewardsForDate d db).2.transactions = db.transactions := by
  unfold processDailyRewardsForDate
  split
  · exact ⟨rfl, rfl⟩
  · exact ⟨processContracts_balance_blocked d ch _ db 0 0 0 h,
      processContracts_transactions d _ db 0 0 0⟩

/-- Claim C5 amended-theorem witness: child 3 has an incomplete legacy
task due day 25 and an active contract; the run for day 25 leaves the
balance and the ledger untouched. -/
theorem dd_c5_amended_witness :
    (let db0 : DB := ⟨[⟨1, "Devoirs", "", 25, false, 9, false, [], none, [3]⟩],
       2, [], [], [⟨15, 3, 2, 0, 100, true⟩], [], [⟨3, 7⟩], []⟩
     balanceOf (processDailyRewardsForDate 25 db0).2 3 = balanceOf db0 3 ∧
     (processDailyRewardsForDate 25 db0).2.transactions = db0.transactions) :=
  dd_c5_amended 25 3
    ⟨[⟨1, "Devoirs", "", 25, false, 9, false, [], none, [3]⟩],
      2, [], [], [⟨15, 3, 2, 0, 100, true⟩], [], [⟨3, 7⟩], []⟩
    (by decide)

theorem processDaily_single_active (d : Nat) (ts : List LTask) (ntid : Nat)
    (se : List SeriesRow) (oc : List OccurrenceRow) (c : Contract)
    (vs : List RuleViolation) (wl : List Wallet) (txs : List WalletTx)
    (ha : c.active = true) (h1 : c.startDate ≤ d) (h2 : d ≤ c.endDate) :
    processDailyRewardsForDate d ⟨ts, ntid, se, oc, [c], vs, wl, txs⟩ =
      (⟨d, 0, 1, 0⟩,
        (processContract d ⟨ts, ntid, se, oc, [c], vs, wl, txs⟩ c).2) := by
  have hfil : activeContractsFor ⟨ts, ntid, se, oc, [c], vs, wl, txs⟩ d = [c] := by
    unfold activeContractsFor
    simp [ha, h1, h2]
  unfold processDailyRewardsForDate
  rw [hfil]
  rfl

theorem processDaily_single_inactive (d : Nat) (ts : List LTask) (ntid : Nat)
    (se : List SeriesRow) (oc : List OccurrenceRow) (c : Contract)
    (vs : List RuleViolation) (wl : List Wallet) (txs : List WalletTx)
    (hna : ¬(c.active = true ∧ c.startDate ≤ d ∧ d ≤ c.endDate)) :
    processDailyRewardsForDate d ⟨ts, ntid, se, oc, [c], vs, wl, txs⟩ =
      (⟨d, 0, 0, 0⟩, ⟨ts, ntid, se, oc, [c], vs, wl, txs⟩) := by
  have hfil : activeContractsFor ⟨ts, ntid, se, oc, [c], vs, wl, txs⟩ d = [] := by
    unfold activeContractsFor
    rw [List.filter_cons_of_neg, List.filter_nil]
    simp only [Bool.and_eq_true, decide_eq_true_eq, and_assoc]
    intro hcon
    exact hna hcon
  unfold processDailyRewardsForDate
  rw [hfil]
  rfl

/-- Claim C7 counterexample: contract 13 for child 5 is active, day 40
lies in its range, the child has no tasks due and no violations that day,
so the claim says the contract is credited the daily reward for day 40.
But a daily-reward transaction for (child 5, contract 13) dated day 40
already exists, so the run skips it and the balance stays 0: the claimed
four conditions are not sufficient for crediting. -/
theorem dd_c7_eligible_but_not_credited :
    (let c : Contract := ⟨13, 5, 2, 0, 100, true⟩
     let db0 : DB := ⟨[], 0, [], [], [c], [], [⟨5, 0⟩],
       [⟨5, 2, 40 * 86400 + 3600, dailyRewardReason, some 13⟩]⟩
     let db1 := (processDailyRewardsForDate 40 db0).2
     (c.active = true ∧ c.startDate ≤ 40 ∧ 40 ≤ c.endDate ∧
      tasksDueFor db0 5 40 = [] ∧ hasViolation db0 5 40 = false) ∧
     balanceOf db1 5 = 0 ∧ balanceOf db0 5 = 0) := by
  norm_num [processDailyRewardsForDate, activeContractsFor, processContracts,
    processContract, tasksDueFor, hasViolation, existingDailyTxs, ensureWallet,
    creditBalance, balanceOf, dateOf, secondsPerDay, dailyRewardReason]

/-- Claim C7 as amended: for a state whose contract table holds one
contract with a positive daily reward, the daily-reward run for date D
credits the child wallet with the reward (the balance grows by exactly
dailyReward; the transaction row itself is lost to the date_only bug
recorded for claims C1 and C2) if and only if the contract is active, D
lies in [startDate, endDate] inclusive, every legacy Task row assigned to
the child and due on D is completed (vacuously true with no such task),
no rule violation exists for the child on D, and no daily-reward
transaction for (child, contract) dated D already exists. -/
theorem dd_c7_amended (d : Nat) (ts : List LTask) (ntid : Nat)
    (se : List SeriesRow) (oc : List OccurrenceRow) (c : Contract)
    (vs : List RuleViolation) (wl : List Wallet) (txs : List WalletTx)
    (hr : 0 < c.dailyReward) :
    balanceOf (processDailyRewardsForDate d ⟨ts, ntid, se, oc, [c], vs, wl, txs⟩).2
        c.childId =
      balanceOf ⟨ts, ntid, se, oc, [c], vs, wl, txs⟩ c.childId + c.dailyReward ↔
    (c.active = true ∧ c.startDate ≤ d ∧ d ≤ c.endDate ∧
     (tasksDueFor ⟨ts, ntid, se, oc, [c], vs, wl, txs⟩ c.childId d).any
        (fun t => !t.completed) = false ∧
     hasViolation ⟨ts, ntid, se, oc, [c], vs, wl, txs⟩ c.childId d = false ∧
     existingDailyTxs ⟨ts, ntid, se, oc, [c], vs, wl, txs⟩ c.childId c.id d = []) := by
  have hrne : c.dailyReward ≠ 0 := ne_of_gt hr
  by_cases hact : c.active = true ∧ c.startDate ≤ d ∧ d ≤ c.endDate
  · rw [processDaily_single_active d ts ntid se oc c vs wl txs hact.1
      hact.2.1 hact.2.2]
    rw [show ((⟨d, 0, 1, 0⟩,
        (processContract d ⟨ts, ntid, se, oc, [c], vs, wl, txs⟩ c).2) :
        RewardSummary × DB).2 =
        (processContract d ⟨ts, ntid, se, oc, [c], vs, wl, txs⟩ c).2 from rfl]
    rw [processContract_balance_self]
    split
    · rename_i hcond
      exact iff_of_true rfl
        ⟨hact.1, hact.2.1, hact.2.2, hcond.1, hcond.2.1, hcond.2.2⟩
    · rename_i hcond
      constructor
      · intro heq
        exact absurd (self_eq_add_right.mp heq) hrne
      · intro hall
        obtain ⟨-, -, -, h4, h5, h6⟩ := hall
        exact absurd ⟨h4, h5, h6⟩ hcond
  · rw [processDaily_single_inactive d ts ntid se oc c vs wl txs hact]
    rw [show balanceOf ((⟨d, 0, 0, 0⟩,
        (⟨ts, ntid, se, oc, [c], vs, wl, txs⟩ : DB)) : RewardSummary × DB).2
        c.childId =
        balanceOf (⟨ts, ntid, se, oc, [c], vs, wl, txs⟩ : DB) c.childId from rfl]
    constructor
    · intro heq
      exact absurd (self_eq_add_right.mp heq) hrne
    · intro hall
      exact absurd ⟨hall.1, hall.2.1, hall.2.2.1⟩ hact

/-- Claim C7 amended-theorem witness: a concrete active contract (child 7,
reward 5, range day 100 to day 200) over otherwise empty tables satisfies
all five conditions for day 150, and indeed the run raises the balance of
child 7 from 0 to 5. -/
theorem dd_c7_amended_witness :
    (0 : ℚ) < 5 ∧
    (balanceOf (processDailyRewardsForDate 150
        ⟨[], 0, [], [], [⟨3, 7, 5, 100, 200, true⟩], [], [], []⟩).2 7 =
      balanceOf ⟨[], 0, [], [], [⟨3, 7, 5, 100, 200, true⟩], [], [], []⟩ 7 + 5 ↔
    ((⟨3, 7, 5, 100, 200, true⟩ : Contract).active = true ∧ 100 ≤ 150 ∧ 150 ≤ 200 ∧
     (tasksDueFor ⟨[], 0, [], [], [⟨3, 7, 5, 100, 200, true⟩], [], [], []⟩ 7 150).any
        (fun t => !t.completed) = false ∧
     hasViolation ⟨[], 0, [], [], [⟨3, 7, 5, 100, 200, true⟩], [], [], []⟩ 7 150 = false ∧
     existingDailyTxs ⟨[], 0, [], [], [⟨3, 7, 5, 100, 200, true⟩], [], [], []⟩ 7 3 150 = [])) :=
  ⟨by norm_num,
    dd_c7_amended 150 [] 0 [] [] ⟨3, 7, 5, 100, 200, true⟩ [] [] [] (by norm_num)⟩

/-- Claim C9 counterexample: child 8 has wallet balance 0 and an active
contract 21 (daily reward 4) that is eligible for day 30 with no existing
reward row, so the run reaches the crediting step, whose transaction
constructor fails (the date_only keyword, see claims C1 and C2).  That
error — a storage error other than the duplicate condition — is neither
surfaced nor rolled back: the run returns the ordinary summary (0
processed, 1 skipped, 0 credited) with no error record, and the balance
mutation performed before the failure persists (balance 4), while no
transaction row exists.  This contradicts the claim that such errors are
surfaced and the failing contract writes are rolled back. -/
theorem dd_c9_error_not_surfaced_not_rolled_back :
    (let db0 : DB := ⟨[], 0, [], [], [⟨21, 8, 4, 0, 100, true⟩], [], [⟨8, 0⟩], []⟩
     let r := processDailyRewardsForDate 30 db0
     r.1 = ⟨30, 0, 1, 0⟩ ∧ r.2.transactions = [] ∧
     balanceOf db0 8 = 0 ∧ balanceOf r.2 8 = 4) := by
  norm_num [processDailyRewardsForDate, activeContractsFor, processContracts,
    processContract, tasksDueFor, hasViolation, existingDailyTxs, ensureWallet,
    creditBalance, balanceOf, dateOf, secondsPerDay]

/-- Claim C9 as amended: when a contract reaches the crediting step (it is
active, in range, with all legacy tasks complete, no violation and no
existing reward row), the error raised there is caught by the per-contract
handler and swallowed: the run completes normally and reports the contract
merely as skipped in the summary (0 processed, 1 skipped, 0 credited),
processing continues, the balance mutation made before the error is kept
(the balance grows by dailyReward), and no transaction row is written. -/
theorem dd_c9_amended (d : Nat) (ts : List LTask) (ntid : Nat)
    (se : List SeriesRow) (oc : List OccurrenceRow) (c : Contract)
    (vs : List RuleViolation) (wl : List Wallet) (txs : List WalletTx)
    (ha : c.active = true) (h1 : c.startDate ≤ d) (h2 : d ≤ c.endDate)
    (h3 : (tasksDueFor ⟨ts, ntid, se, oc, [c], vs, wl, txs⟩ c.childId d).any
        (fun t => !t.completed) = false)
    (h4 : hasViolation ⟨ts, ntid, se, oc, [c], vs, wl, txs⟩ c.childId d = false)
    (h5 : existingDailyTxs ⟨ts, ntid, se, oc, [c], vs, wl, txs⟩
        c.childId c.id d = []) :
    (processDailyRewardsForDate d ⟨ts, ntid, se, oc, [c], vs, wl, txs⟩).1 =
      ⟨d, 0, 1, 0⟩ ∧
    balanceOf (processDailyRewardsForDate d
        ⟨ts, ntid, se, oc, [c], vs, wl, txs⟩).2 c.childId =
      balanceOf ⟨ts, ntid, se, oc, [c], vs, wl, txs⟩ c.childId + c.dailyReward ∧
    (processDailyRewardsForDate d ⟨ts, ntid, se, oc, [c], vs, wl, txs⟩).2.transactions =
      txs := by
  rw [processDaily_single_active d ts ntid se oc c vs wl txs ha h1 h2]
  refine ⟨rfl, ?_, ?_⟩
  · rw [show ((⟨d, 0, 1, 0⟩,
        (processContract d ⟨ts, ntid, se, oc, [c], vs, wl, txs⟩ c).2) :
        RewardSummary × DB).2 =
        (processContract d ⟨ts, ntid, se, oc, [c], vs, wl, txs⟩ c).2 from rfl]
    rw [processContract_balance_self, if_pos ⟨h3, h4, h5⟩]
  · rw [show ((⟨d, 0, 1, 0⟩,
        (processContract d ⟨ts, ntid, se, oc, [c], vs, wl, txs⟩ c).2) :
        RewardSummary × DB).2 =
        (processContract d ⟨ts, ntid, se, oc, [c], vs, wl, txs⟩ c).2 from rfl]
    exact (processContract_preserves d ⟨ts, ntid, se, oc, [c], vs, wl, txs⟩ c).1

/-- Claim C9 amended-theorem witness: the concrete eligible contract 17
(child 6, reward 2, in range for day 12) over otherwise empty tables: the
run reports 1 skipped with no error, the balance grows by 2, and the
ledger stays empty. -/
theorem dd_c9_amended_witness :
    (processDailyRewardsForDate 12
        ⟨[], 0, [], [], [⟨17, 6, 2, 0, 50, true⟩], [], [], []⟩).1 =
      ⟨12, 0, 1, 0⟩ ∧
    balanceOf (processDailyRewardsForDate 12
        ⟨[], 0, [], [], [⟨17, 6, 2, 0, 50, true⟩], [], [], []⟩).2 6 =
      balanceOf ⟨[], 0, [], [], [⟨17, 6, 2, 0, 50, true⟩], [], [], []⟩ 6 + 2 ∧
    (processDailyRewardsForDate 12
        ⟨[], 0, [], [], [⟨17, 6, 2, 0, 50, true⟩], [], [], []⟩).2.transactions = [] :=
  dd_c9_amended 12 [] 0 [] [] ⟨17, 6, 2, 0, 50, true⟩ [] [] []
    rfl (by norm_num) (by norm_num) (by decide) (by decide) (by decide)

/-- The aggregated summary returned by reprocess_rewards
(wallets.py lines 155-172). -/
structure ReprocSummary where
  totalProcessed : Nat
  totalSkipped : Nat
  totalAmount : ℚ
  daysProcessed : Nat
deriving DecidableEq

/-- The while loop of reprocess_rewards (wallets.py lines 146-153): run
the daily processing for each date from the current date to end_date and
collect the per-date summaries in order. -/
def reprocessLoop (e : Nat) (d : Nat) (db : DB) (acc : List RewardSummary) :
    List RewardSummary × DB :=
  if _h : d ≤ e then
    reprocessLoop e (d + 1) (processDailyRewardsForDate d db).2
      (acc ++ [(processDailyRewardsForDate d db).1])
  else (acc, db)
termination_by e + 1 - d
decreasing_by omega

/-- Reference recursion: process a list of dates in order, threading the
state and collecting the summaries. -/
def processDates : List Nat → DB → List RewardSummary × DB
  | [], db => ([], db)
  | d :: ds, db =>
    ((processDailyRewardsForDate d db).1 ::
        (processDates ds (processDailyRewardsForDate d db).2).1,
      (processDates ds (processDailyRewardsForDate d db).2).2)

/-- Validation failures of reprocess_rewards (wallets.py lines 121-141),
in the order the code checks them. -/
inductive ReprocError where
  | startAfterEnd
  | rangeTooLong
  | futureDates
deriving DecidableEq

/-- reprocess_rewards (wallets.py lines 111-179): reject start after end,
then a span of more than 30 days, then any future date, all before any
processing; otherwise iterate process_daily_rewards_for_date over each
date of the inclusive range and return the aggregated totals. -/
def reprocessRewards (startD endD today : Nat) (db : DB) :
    Except ReprocError (ReprocSummary × DB) :=
  if startD > endD then .error .startAfterEnd
  else if endD - startD > 30 then .error .rangeTooLong
  else if startD > today ∨ endD > today then .error .futureDates
  else
    .ok (⟨(((reprocessLoop endD startD db []).1.map
          (fun r => r.rewardsProcessed)).sum),
        (((reprocessLoop endD startD db []).1.map
          (fun r => r.rewardsSkipped)).sum),
        (((reprocessLoop endD startD db []).1.map
          (fun r => r.totalAmountCredited)).sum),
        (reprocessLoop endD startD db []).1.length⟩,
      (reprocessLoop endD startD db []).2)

theorem reprocessLoop_eq_processDates (e : Nat) :
    ∀ (n d : Nat), e + 1 - d = n → ∀ (db : DB) (acc : List RewardSummary),
      reprocessLoop e d db acc =
        (acc ++ (processDates ((List.range n).map (d + ·)) db).1,
         (processDates ((List.range n).map (d + ·)) db).2) := by
  intro n
  induction n with
  | zero =>
    intro d hd db acc
    rw [reprocessLoop]
    rw [dif_neg (by omega)]
    simp [processDates]
  | succ n ih =>
    intro d hd db acc
    rw [reprocessLoop, dif_pos (by omega)]
    rw [ih (d + 1) (by omega)]
    have hr : (List.range (n + 1)).map (d + ·) =
        d :: (List.range n).map ((d + 1) + ·) := by
      rw [List.range_succ_eq_map]
      simp only [List.map_cons, List.map_map, Nat.add_zero]
      refine congrArg (List.cons d) ?_
      refine List.map_congr_left ?_
      intro i _
      simp only [Function.comp]
      omega
    rw [hr]
    simp [processDates, List.append_assoc]

/-- Claim C8: a reprocess request with start after end, a span over 30
days, or any date after today is rejected with a validation error before
any per-date processing (the state is untouched); a valid request runs the
daily processing once for every date of the inclusive range in order,
threading the state, and returns the summed processed, skipped and
total-amount counters together with the number of days processed. -/
theorem dd_c8_reprocess_validation (startD endD today : Nat) (db : DB) :
    ((startD > endD ∨ endD - startD > 30 ∨ startD > today ∨ endD > today) →
      ∃ err, reprocessRewards startD endD today db = .error err) ∧
    (startD ≤ endD → endD - startD ≤ 30 → startD ≤ today → endD ≤ today →
      reprocessRewards startD endD today db =
        .ok (⟨(((processDates ((List.range (endD + 1 - startD)).map (startD + ·))
              db).1.map (fun r => r.rewardsProcessed)).sum),
            (((processDates ((List.range (endD + 1 - startD)).map (startD + ·))
              db).1.map (fun r => r.rewardsSkipped)).sum),
            (((processDates ((List.range (endD + 1 - startD)).map (startD + ·))
              db).1.map (fun r => r.totalAmountCredited)).sum),
            (processDates ((List.range (endD + 1 - startD)).map (startD + ·))
              db).1.length⟩,
          (processDates ((List.range (endD + 1 - startD)).map (startD + ·))
            db).2)) := by
  constructor
  · intro hbad
    unfold reprocessRewards
    by_cases hse : startD > endD
    · rw [if_pos hse]
      exact ⟨.startAfterEnd, rfl⟩
    · rw [if_neg hse]
      by_cases hsp : endD - startD > 30
      · rw [if_pos hsp]
        exact ⟨.rangeTooLong, rfl⟩
      · rw [if_neg hsp]
        have hfut : startD > today ∨ endD > today := by
          rcases hbad with h | h | h | h
          · exact absurd h hse
          · exact absurd h hsp
          · exact Or.inl h
          · exact Or.inr h
        rw [if_pos hfut]
        exact ⟨.futureDates, rfl⟩
  · intro h1 h2 h3 h4
    unfold reprocessRewards
    rw [if_neg (by omega), if_neg (by omega), if_neg (by push_neg; omega)]
    rw [reprocessLoop_eq_processDates endD (endD + 1 - startD) startD rfl db []]
    simp [List.nil_append]

/-- Claim C8 witness: the valid request over days 3 to 5 with today 9 on
an empty state processes exactly the three dates and returns zero
totals. -/
theorem dd_c8_reprocess_witness :
    reprocessRewards 3 5 9 ⟨[], 0, [], [], [], [], [], []⟩ =
      .ok (⟨(((processDates ((List.range (5 + 1 - 3)).map (3 + ·))
            ⟨[], 0, [], [], [], [], [], []⟩).1.map
            (fun r => r.rewardsProcessed)).sum),
          (((processDates ((List.range (5 + 1 - 3)).map (3 + ·))
            ⟨[], 0, [], [], [], [], [], []⟩).1.map
            (fun r => r.rewardsSkipped)).sum),
          (((processDates ((List.range (5 + 1 - 3)).map (3 + ·))
            ⟨[], 0, [], [], [], [], [], []⟩).1.map
            (fun r => r.totalAmountCredited)).sum),
          (processDates ((List.range (5 + 1 - 3)).map (3 + ·))
            ⟨[], 0, [], [], [], [], [], []⟩).1.length⟩,
        (processDates ((List.range (5 + 1 - 3)).map (3 + ·))
          ⟨[], 0, [], [], [], [], [], []⟩).2) :=
  (dd_c8_reprocess_validation 3 5 9 ⟨[], 0, [], [], [], [], [], []⟩).2
    (by norm_num) (by norm_num) (by norm_num) (by norm_num)

/-- The completed branch of update_task_occurrence (tasks.py lines
391-396): set completed from the payload; when set to true, force
cancelled to false; when set to false, leave cancelled as it is. -/
def applyCompleted (pc : Option Bool) (o : OccurrenceRow) : OccurrenceRow :=
  match pc with
  | none => o
  | some b =>
    if b then { o with completed := true, cancelled := false }
    else { o with completed := false }

/-- The cancelled branch of update_task_occurrence (tasks.py lines
397-402): set cancelled from the payload; when set to true, force
completed to false. -/
def applyCancelled (pcan : Option Bool) (o : OccurrenceRow) : OccurrenceRow :=
  match pcan with
  | none => o
  | some b =>
    if b then { o with cancelled := true, completed := false }
    else { o with cancelled := false }

/-- update_task_occurrence field mutation (tasks.py lines 389-402): the
completed key of the payload is applied first, then the cancelled key,
each being none when absent from the payload. -/
def updateOccurrence (pc pcan : Option Bool) (o : OccurrenceRow) :
    OccurrenceRow :=
  applyCancelled pcan (applyCompleted pc o)

/-- toggle_complete_occurrence (tasks.py lines 463-520): an insert of
(series_id, due_date, completed = true) with on-conflict-do-update
toggling completed.  On the conflicting existing row only completed is
toggled; cancelled is left untouched.  When no row exists the insert
creates one with completed true and cancelled at its column default
false. -/
def toggleCompleteUpsert (sid d : Nat) (occs : List OccurrenceRow) :
    List OccurrenceRow :=
  if occs.any (fun o => o.seriesId == sid && o.dueDate == d) then
    occs.map (fun o =>
      if o.seriesId == sid && o.dueDate == d then
        { o with completed := !o.completed }
      else o)
  else occs ++ [⟨sid, d, true, false⟩]

/-- Claim C10 counterexample: toggling completion of a cancelled
occurrence (series 1, due day 5, completed false, cancelled true) leaves
cancelled untouched and sets completed to true, producing an occurrence
with completed and cancelled both true — the toggle upsert does not
preserve the mutual exclusion the claim asserts. -/
theorem dd_c10_toggle_breaks_exclusion :
    ((toggleCompleteUpsert 1 5 [⟨1, 5, false, true⟩]) =
      [⟨1, 5, true, true⟩]) ∧
    (∃ o ∈ toggleCompleteUpsert 1 5 [⟨1, 5, false, true⟩],
      o.completed = true ∧ o.cancelled = true) := by
  refine ⟨by decide, ⟨⟨1, 5, true, true⟩, by decide, rfl, rfl⟩⟩

/-- Claim C10 as amended: the occurrence-update operation forces cancelled
to false whenever it sets completed to true and forces completed to false
whenever it sets cancelled to true, so its result never has completed and
cancelled both true provided the incoming row satisfied the exclusion or
the payload set at least one of the two fields; the toggle-complete
upsert, by contrast, toggles completed and never changes cancelled of the
existing rows (appending a completed/not-cancelled row when none exists),
and therefore does not preserve the exclusion on cancelled rows. -/
theorem dd_c10_amended :
    (∀ (pc pcan : Option Bool) (o : OccurrenceRow),
      (¬(o.completed = true ∧ o.cancelled = true) ∨ pc.isSome = true ∨
        pcan.isSome = true) →
      ¬((updateOccurrence pc pcan o).completed = true ∧
        (updateOccurrence pc pcan o).cancelled = true)) ∧
    (∀ (sid d : Nat) (occs : List OccurrenceRow),
      (toggleCompleteUpsert sid d occs).map (fun o => o.cancelled) =
        occs.map (fun o => o.cancelled) ++
          (if occs.any (fun o => o.seriesId == sid && o.dueDate == d) then []
           else [false])) := by
  constructor
  · intro pc pcan o hyp
    rcases pc with - | b
    · rcases pcan with - | c
      · rcases hyp with hyp | hyp | hyp
        · exact hyp
        · exact absurd hyp (by simp)
        · exact absurd hyp (by simp)
      · cases c <;> simp [updateOccurrence, applyCompleted, applyCancelled]
    · rcases pcan with - | c
      · cases b <;> simp [updateOccurrence, applyCompleted, applyCancelled]
      · cases b <;> cases c <;>
          simp [updateOccurrence, applyCompleted, applyCancelled]
  · intro sid d occs
    unfold toggleCompleteUpsert
    by_cases hany : occs.any (fun o => o.seriesId == sid && o.dueDate == d) = true
    · rw [if_pos hany, if_pos hany, List.append_nil, List.map_map]
      refine List.map_congr_left ?_
      intro o _
      simp only [Function.comp]
      split <;> rfl
    · rw [if_neg hany, if_neg hany, List.map_append]
      rfl

/-- Claim C10 amended-theorem witness: marking a cancelled occurrence
completed through the update operation clears the cancelled flag, and the
toggle upsert on an empty table appends a non-cancelled row. -/
theorem dd_c10_amended_witness :
    (¬((updateOccurrence (some true) none ⟨1, 5, false, true⟩).completed = true ∧
      (updateOccurrence (some true) none ⟨1, 5, false, true⟩).cancelled = true)) ∧
    (toggleCompleteUpsert 2 9 []).map (fun o => o.cancelled) =
      ([] : List OccurrenceRow).map (fun o => o.cancelled) ++
        (if ([] : List OccurrenceRow).any
            (fun o => o.seriesId == 2 && o.dueDate == 9) then []
         else [false]) :=
  ⟨dd_c10_amended.1 (some true) none ⟨1, 5, false, true⟩ (Or.inr (Or.inl rfl)),
    dd_c10_amended.2 2 9 []⟩

/-- Modelled from the spec: the uniqueness constraint on daily-reward
wallet transactions.  The sources reference a migration file,
backend/migrations/add_wallet_transaction_unique_constraint.sql, read and
applied by apply_migration.py (and orchestrated with a prior deduplication
by deploy_duplicate_prevention.py and cleanup_duplicates.py, which group
rows by child_id, contract_id and the calendar date of the date column);
the SQL file itself is not among the sources, so the constraint is
modelled from the spec wording: at most one transaction with the
daily-reward reason may exist per (childId, contractId, calendar date).
This counts the daily-reward rows of one such key. -/
def dailyKeyCount (txs : List WalletTx) (child : Nat) (cid : Option Nat)
    (d : Nat) : Nat :=
  (txs.filter (fun tx => tx.reason == dailyRewardReason &&
    tx.childId == child && tx.contractId == cid && dateOf tx.date == d)).length

/-- The invariant the constraint enforces: at most one daily-reward
transaction per (childId, contractId, calendar date). -/
def dailyRewardUnique (txs : List WalletTx) : Prop :=
  ∀ (child : Nat) (cid : Option Nat) (d : Nat),
    dailyKeyCount txs child cid d ≤ 1

/-- Modelled from the spec: an insert under the uniqueness constraint.  A
daily-reward row whose (childId, contractId, calendar date) key is already
present among the daily-reward rows is rejected by the constraint (the
integrity error); every other insert appends the row. -/
def insertTxWithConstraint (tx : WalletTx) (txs : List WalletTx) :
    Except Unit (List WalletTx) :=
  if tx.reason == dailyRewardReason &&
      decide (1 ≤ dailyKeyCount txs tx.childId tx.contractId (dateOf tx.date)) then
    .error ()
  else .ok (txs ++ [tx])

/-- Claim C3: the storage-level uniqueness constraint guarantees that at
most one daily-reward transaction exists per (childId, contractId,
calendar date): any insert the constraint lets through preserves the
invariant, whatever the inserted row is. -/
theorem dd_c3_constraint_preserves_uniqueness (txs : List WalletTx)
    (tx : WalletTx) (txs2 : List WalletTx)
    (hu : dailyRewardUnique txs)
    (hins : insertTxWithConstraint tx txs = .ok txs2) :
    dailyRewardUnique txs2 := by
  unfold insertTxWithConstraint at hins
  split at hins
  · exact absurd hins (by simp)
  · rename_i hguard
    have htxs2 : txs ++ [tx] = txs2 := by simpa using hins
    subst htxs2
    intro child cid d
    have hkey := hu child cid d
    unfold dailyKeyCount at hkey ⊢
    rw [List.filter_append, List.length_append]
    by_cases hp : (tx.reason == dailyRewardReason && tx.childId == child &&
        tx.contractId == cid && dateOf tx.date == d) = true
    · simp only [Bool.and_eq_true, beq_iff_eq] at hp
      obtain ⟨⟨⟨hreason, hchild⟩, hcid⟩, hdate⟩ := hp
      have hz : dailyKeyCount txs tx.childId tx.contractId (dateOf tx.date) = 0 := by
        by_contra hnz
        exact hguard (by
          simp only [Bool.and_eq_true, beq_iff_eq, decide_eq_true_eq]
          exact ⟨hreason, by omega⟩)
      have hz2 : (txs.filter (fun tx2 => tx2.reason == dailyRewardReason &&
          tx2.childId == child && tx2.contractId == cid &&
          dateOf tx2.date == d)).length = 0 := by
        unfold dailyKeyCount at hz
        rw [hchild, hcid, hdate] at hz
        exact hz
      rw [hz2]
      have hone : (List.filter (fun tx2 => tx2.reason == dailyRewardReason &&
          tx2.childId == child && tx2.contractId == cid &&
          dateOf tx2.date == d) [tx]).length ≤ 1 := by
        rw [List.filter_cons_of_pos, List.filter_nil]
        · rfl
        · simp [hreason, hchild, hcid, hdate]
      omega
    · have hnil : List.filter (fun tx2 => tx2.reason == dailyRewardReason &&
          tx2.childId == child && tx2.contractId == cid &&
          dateOf tx2.date == d) [tx] = [] := by
        rw [List.filter_cons_of_neg, List.filter_nil]
        simpa using hp
      rw [hnil]
      simpa using hkey

/-- Claim C3 witness: inserting a first daily-reward row for child 4,
contract 9, day 10 into an empty ledger is accepted and the constraint
invariant holds afterwards. -/
theorem dd_c3_constraint_witness :
    dailyRewardUnique [⟨4, 5, 10 * 86400, dailyRewardReason, some 9⟩] :=
  dd_c3_constraint_preserves_uniqueness []
    ⟨4, 5, 10 * 86400, dailyRewardReason, some 9⟩
    [⟨4, 5, 10 * 86400, dailyRewardReason, some 9⟩]
    (fun child cid d => by simp [dailyKeyCount])
    (by rfl)

end DD
